import Mathlib

/-!
Shallow embedding of the browser client's real-time media transport and
playback subsystem (`app/static/js/audio-player.js`, `audio-recorder.js`,
`pcm-recorder-processor.js`, `pcm-player-processor.js`, `app.js`).

Time and normalized audio samples are modelled as exact rationals (`ℚ`);
16-bit PCM samples as integers (`ℤ`); JS arrays as Lean lists.  Fallible
operations (JSON parsing) are modelled with `Option`.  Stateful module-level
variables become explicit state records threaded through the functions.
-/

namespace AudioPlayer

/-- A scheduled buffer source: its scheduled start time and its duration in
seconds, as tracked in the module-level `scheduledSources` array of
`audio-player.js`.  An entry is present exactly while the source has neither
ended nor been stopped (`source.onended` removes it). -/
structure ScheduledSource where
  start : ℚ
  duration : ℚ
  deriving Repr, DecidableEq

/-- Module-level state of `audio-player.js`: `nextStartTime` and
`scheduledSources`. -/
structure PlayerState where
  nextStartTime : ℚ
  scheduledSources : List ScheduledSource
  deriving Repr, DecidableEq

/-- Initial module state: `let nextStartTime = 0; let scheduledSources = []`. -/
def initPlayerState : PlayerState :=
  { nextStartTime := 0, scheduledSources := [] }

/-- Duration in seconds of a chunk of Int16 PCM samples, as computed by
`audioContext.createBuffer(1, float32.length, 24000)`:
`buffer.duration = length / 24000`. -/
def chunkDuration (samples : List ℤ) : ℚ :=
  (samples.length : ℚ) / 24000

/-- The start time `playAudioChunk` assigns to a chunk arriving at
`now = audioContext.currentTime`: `Math.max(now, nextStartTime)`. -/
def chunkStart (now : ℚ) (st : PlayerState) : ℚ :=
  max now st.nextStartTime

/-- Function `playAudioChunk(audioContext, arrayBuffer)` from `audio-player.js`
(lines 28–55): schedule the chunk to start at `max(now, nextStartTime)`,
advance `nextStartTime` by the buffer's duration, and push the source onto
`scheduledSources`.  (The Int16→Float32 conversion `pcmData[i] / 32768.0`
does not affect timing and is modelled separately as dequantization.) -/
def playAudioChunk (now : ℚ) (samples : List ℤ) (st : PlayerState) : PlayerState :=
  let dur := chunkDuration samples
  let start := max now st.nextStartTime
  { nextStartTime := start + dur
    scheduledSources := st.scheduledSources ++ [{ start := start, duration := dur }] }

/-- The `source.onended` callback: the finished source is spliced out of
`scheduledSources`. -/
def sourceEnded (s : ScheduledSource) (st : PlayerState) : PlayerState :=
  { st with scheduledSources := st.scheduledSources.erase s }

/-- Function `stopAudioPlayback(audioContext)` from `audio-player.js`
(lines 61–69): call `stop()` on every tracked source, empty
`scheduledSources`, and reset `nextStartTime` to `audioContext.currentTime`. -/
def stopAudioPlayback (now : ℚ) (_st : PlayerState) : PlayerState :=
  { nextStartTime := now, scheduledSources := [] }

/-- The sequence of start times assigned to a list of `(arrivalTime, chunk)`
pairs fed through `playAudioChunk` from a given state. -/
def playStarts (st : PlayerState) : List (ℚ × List ℤ) → List ℚ
  | [] => []
  | (t, xs) :: rest => chunkStart t st :: playStarts (playAudioChunk t xs st) rest

/-- The spec's scenario: chunks of 100 ms, 150 ms, 80 ms (2400, 3600, 1920
samples at 24 kHz) arriving at t = 0 s, 0.05 s, 0.5 s. -/
def scenarioChunks : List (ℚ × List ℤ) :=
  [(0, List.replicate 2400 0), (1/20, List.replicate 3600 0),
   (1/2, List.replicate 1920 0)]

end AudioPlayer

namespace AudioRecorder

/-- Truncation toward zero, the integer conversion JS applies when a
(possibly fractional) number is stored into an `Int16Array` element. -/
def truncTowardZero (q : ℚ) : ℤ :=
  if q < 0 then ⌈q⌉ else ⌊q⌋

/-- One sample of `convertFloat32ToPCM` from `audio-recorder.js`
(lines 39–46): clamp to `[-1, 1]` via `Math.max(-1, Math.min(1, x))`, then
multiply by `0x8000` (32768) when negative and by `0x7fff` (32767)
otherwise; storing into the `Int16Array` truncates toward zero. -/
def convertSample (x : ℚ) : ℤ :=
  let s := max (-1 : ℚ) (min 1 x)
  if s < 0 then truncTowardZero (s * 0x8000) else truncTowardZero (s * 0x7fff)

/-- Function `convertFloat32ToPCM(float32Array)` from `audio-recorder.js`:
allocate an `Int16Array` of the same length and convert each sample. -/
def convertFloat32ToPCM (xs : List ℚ) : List ℤ :=
  xs.map convertSample

/-- Dequantization of a 16-bit PCM sample to a normalized float, as performed
on the playback path in `pcm-player-processor.js` line 29:
`this.buffer[this.writeIndex] = int16Array[i] / 0x7fff`.
(The alternative playback path in `audio-player.js` line 32 instead divides
by `32768.0`.) -/
def dequantizeSample (n : ℤ) : ℚ :=
  (n : ℚ) / 0x7fff

/-- Method `process` of `PCMProcessor` in `pcm-recorder-processor.js`
(lines 57–64 of the concatenated `audio-recorder.js` sources): the captured
Float32 frame is copied and posted to the main thread unchanged; no
resampling happens in the worklet (the recorder's `AudioContext` is created
directly at the 16 kHz target rate). -/
def recorderProcess (inputChannel : List ℚ) : List ℚ :=
  inputChannel

/-- The recorder's `port.onmessage` handler in `startAudioRecorderWorklet`
(lines 15–19): convert the posted Float32 frame to Int16 PCM and hand it to
the transmit callback. -/
def recorderHandlerInput (float32Data : List ℚ) : List ℤ :=
  convertFloat32ToPCM float32Data

/-- Modelled from the spec: the capture-side downsampling step of the
Capture Adapter (spec §4.1).  The repository's project notes describe an
`audio-recorder.js` variant that "downsamples native→16kHz", but that code is
absent from `src/` (the version present creates its context at 16 kHz and
passes frames through).  Following the spec's words: if the native rate
equals the target rate, pass through unchanged; otherwise partition the
native buffer into windows with rounded boundaries (one window per output
sample, output count `⌊len·target/native⌋`) and average each window. -/
def downsample (nativeRate targetRate : ℕ) (xs : List ℚ) : List ℚ :=
  if nativeRate = targetRate then xs
  else
    (List.range (xs.length * targetRate / nativeRate)).map fun j =>
      let lo := j * nativeRate / targetRate
      let hi := (j + 1) * nativeRate / targetRate
      let window := (xs.drop lo).take (hi - lo)
      window.sum / (window.length : ℚ)

end AudioRecorder

namespace PCMPlayer

/-- Ring-buffer capacity from the `PCMPlayerProcessor` constructor
(`pcm-player-processor.js` line 11): `24000 samples/sec * 180 sec`. -/
def bufferSize : ℕ := 24000 * 180

/-- State of `PCMPlayerProcessor`: the Float32 ring buffer and the two
indices. -/
structure ProcessorState where
  buffer : ℕ → ℚ
  writeIndex : ℕ
  readIndex : ℕ

/-- Initial processor state: a zero-filled buffer with both indices at 0. -/
def initProcessorState : ProcessorState :=
  { buffer := fun _ => 0, writeIndex := 0, readIndex := 0 }

/-- One iteration of the loop in `PCMPlayerProcessor._enqueue`
(`pcm-player-processor.js` lines 27–35): store the dequantized sample at
`writeIndex`, advance `writeIndex` modulo `bufferSize`, and on collision with
`readIndex` advance `readIndex` past the evicted oldest sample. -/
def enqueueSample (x : ℤ) (st : ProcessorState) : ProcessorState :=
  let buf := Function.update st.buffer st.writeIndex (AudioRecorder.dequantizeSample x)
  let w := (st.writeIndex + 1) % bufferSize
  if w = st.readIndex then
    { buffer := buf, writeIndex := w, readIndex := (st.readIndex + 1) % bufferSize }
  else
    { buffer := buf, writeIndex := w, readIndex := st.readIndex }

/-- Method `_enqueue(int16Array)` of `PCMPlayerProcessor`: push every sample
of the message in order. -/
def enqueue (xs : List ℤ) (st : ProcessorState) : ProcessorState :=
  xs.foldl (fun st x => enqueueSample x st) st

/-- Handling of the `"endOfAudio"` control message in the constructor's
`port.onmessage` (lines 17–22): zero the buffer and reset both indices. -/
def endOfAudio (_st : ProcessorState) : ProcessorState :=
  { buffer := fun _ => 0, writeIndex := 0, readIndex := 0 }

/-- One iteration of the output loop in `PCMPlayerProcessor.process`
(lines 42–52): if the buffer is nonempty, emit the sample at `readIndex` and
advance `readIndex` modulo `bufferSize`; otherwise emit silence (0). -/
def processStep (st : ProcessorState) : ℚ × ProcessorState :=
  if st.readIndex ≠ st.writeIndex then
    (st.buffer st.readIndex, { st with readIndex := (st.readIndex + 1) % bufferSize })
  else
    (0, st)

/-- Method `process` of `PCMPlayerProcessor` for an output quantum of `n`
frames: run the output loop `n` times, returning the emitted samples (the
contents written to `channel0`) and the final state. -/
def process : ℕ → ProcessorState → List ℚ × ProcessorState
  | 0, st => ([], st)
  | n + 1, st =>
    let p := processStep st
    let r := process n p.2
    (p.1 :: r.1, r.2)

/-- Number of unread samples held by the ring buffer. -/
def unread (st : ProcessorState) : ℕ :=
  (bufferSize + st.writeIndex - st.readIndex) % bufferSize

/-- Structural invariant: both indices lie below the capacity. -/
def indexInv (st : ProcessorState) : Prop :=
  st.writeIndex < bufferSize ∧ st.readIndex < bufferSize

instance (st : ProcessorState) : Decidable (indexInv st) := by
  unfold indexInv; infer_instance

/-- The first `m` unread samples in FIFO order, starting at `readIndex`. -/
def readList (st : ProcessorState) (m : ℕ) : List ℚ :=
  (List.range m).map fun i => st.buffer ((st.readIndex + i) % bufferSize)

end PCMPlayer

namespace AppClient

/-- The two transcription roles handled by `updateTranscription` in `app.js`
(the JS passes the strings `"user"` and `"agent"`). -/
inductive Role
  | user
  | agent
  deriving Repr, DecidableEq

/-- A transcription payload: `{text, finished}` as read from
`event.input_transcription` / `event.output_transcription`. -/
structure Transcription where
  text : String
  finished : Bool
  deriving Repr, DecidableEq

/-- An inline-data part: `part.inline_data` with its `mime_type` and decoded
Int16 audio payload (`playAudio` base64-decodes `data` into an
`Int16Array`). -/
structure InlineData where
  mime_type : String
  data : List ℤ
  deriving Repr, DecidableEq

/-- A function-response part: the code only reads
`part.function_response?.response?.total_appliances`. -/
structure FunctionResponse where
  total_appliances : Option ℤ
  deriving Repr, DecidableEq

/-- One element of `event.content.parts`. -/
structure Part where
  inline_data : Option InlineData
  text : Option String
  function_response : Option FunctionResponse
  deriving Repr, DecidableEq

/-- The `event.content` object. -/
structure Content where
  parts : List Part
  deriving Repr, DecidableEq

/-- A parsed downstream server event, with exactly the fields
`handleServerEvent` in `app.js` reads.  `partialFlag` models the boolean
`event.partial === true`; `turn_complete` and `interrupted` model the
truthiness tests on those fields. -/
structure ServerEvent where
  content : Option Content := none
  partialFlag : Bool := false
  turn_complete : Bool := false
  interrupted : Bool := false
  input_transcription : Option Transcription := none
  output_transcription : Option Transcription := none
  author : Option String := none
  deriving Repr, DecidableEq

/-- Mutable browser-side state touched by `handleServerEvent` and its
helpers in `app.js`: the live agent message element and its text, the
per-role transcription accumulators, the finalized transcription entries,
the detached (finalized) agent messages, the inventory counter, the playback
worklet's processor state, and the console log entry count. -/
structure ClientState where
  currentAgentMessage : Option String
  currentAgentText : String
  currentInputTranscription : String
  currentOutputTranscription : String
  transcriptEntries : List (Role × String)
  detachedMessages : List String
  inventoryCount : Option ℤ
  hasPlayerNode : Bool
  player : PCMPlayer.ProcessorState
  filterAudio : Bool
  consoleEntries : ℕ

/-- Function `updateAgentMessage(text, isPartial)` (`app.js`): create the
agent message element if absent, then set `currentAgentText = text` and
display it.  Both branches of the `isPartial` test assign the same value, so
the flag does not influence the result. -/
def updateAgentMessage (text : String) (_isPartial : Bool) (st : ClientState) : ClientState :=
  { st with currentAgentMessage := some text, currentAgentText := text }

/-- Function `finalizeAgentMessage()` (`app.js` lines 546–549): null the
element pointer and clear `currentAgentText`; the detached element itself
stays in the message list with its final text. -/
def finalizeAgentMessage (st : ClientState) : ClientState :=
  { st with
    detachedMessages := st.detachedMessages ++ st.currentAgentMessage.toList
    currentAgentMessage := none
    currentAgentText := "" }

/-- Function `updateTranscription(role, text, finished)` (`app.js`): set the
role's live accumulator to the delta's text; when `finished`, append a
finalized transcript entry and clear only that role's accumulator. -/
def updateTranscription (role : Role) (text : String) (finished : Bool)
    (st : ClientState) : ClientState :=
  let st1 :=
    match role with
    | Role.user => { st with currentInputTranscription := text }
    | Role.agent => { st with currentOutputTranscription := text }
  if finished then
    match role with
    | Role.user =>
      { st1 with
        transcriptEntries := st1.transcriptEntries ++ [(role, text)]
        currentInputTranscription := "" }
    | Role.agent =>
      { st1 with
        transcriptEntries := st1.transcriptEntries ++ [(role, text)]
        currentOutputTranscription := "" }
  else st1

/-- Function `playAudio(base64Data)` (`app.js`): no-op when the player node
is absent, otherwise post the decoded Int16 samples to the playback
worklet. -/
def playAudio (data : List ℤ) (st : ClientState) : ClientState :=
  if st.hasPlayerNode then { st with player := PCMPlayer.enqueue data st.player } else st

/-- Posting `"endOfAudio"` to the playback worklet, as done on
`event.interrupted` when `audioPlayerNode` exists. -/
def postEndOfAudio (st : ClientState) : ClientState :=
  if st.hasPlayerNode then { st with player := PCMPlayer.endOfAudio st.player } else st

/-- Predicate `hasAudioData(event)` (`app.js`): some part carries
`inline_data` whose `mime_type` starts with `"audio/"`. -/
def hasAudioData (event : ServerEvent) : Bool :=
  match event.content with
  | some c =>
    c.parts.any fun p =>
      match p.inline_data with
      | some d => d.mime_type.startsWith "audio/"
      | none => false
  | none => false

/-- The first `content.parts` loop of `handleServerEvent`: play audio parts
and apply text parts to the agent message (the JS `if (part.text)` guard is
truthiness, so the empty string is skipped). -/
def processPart (partialFlag : Bool) (st : ClientState) (part : Part) : ClientState :=
  let st1 :=
    match part.inline_data with
    | some d => if d.mime_type.startsWith "audio/" then playAudio d.data st else st
    | none => st
  match part.text with
  | some t => if t ≠ "" then updateAgentMessage t partialFlag st1 else st1
  | none => st1

/-- The second `content.parts` loop of `handleServerEvent`: update the
inventory counter from `function_response.response.total_appliances`. -/
def processInventoryPart (st : ClientState) (part : Part) : ClientState :=
  match part.function_response with
  | some fr =>
    match fr.total_appliances with
    | some n => { st with inventoryCount := some n }
    | none => st
  | none => st

/-- Function `handleServerEvent(data)` (`app.js` lines 552–605).  The
argument is the result of `JSON.parse(data)` in the `try`/`catch`: `none`
when parsing throws, in which case the handler returns at once.  Otherwise:
log to the console (unless the event is audio and filtering is on), process
content parts (audio playback, agent text), finalize the agent message on
`turn_complete`, post `"endOfAudio"` and finalize on `interrupted`, process
input and output transcriptions (the JS guards
`event.input_transcription?.text` are truthiness tests, so an absent or
empty text is skipped; an output transcription additionally streams into the
chat via `updateAgentMessage`), and update the inventory counter. -/
def handleServerEvent (parsed : Option ServerEvent) (st : ClientState) : ClientState :=
  match parsed with
  | none => st
  | some event =>
    let isAudioEvent := hasAudioData event
    let st1 :=
      if !isAudioEvent || !st.filterAudio then
        { st with consoleEntries := st.consoleEntries + 1 }
      else st
    let st2 :=
      match event.content with
      | some c => c.parts.foldl (processPart event.partialFlag) st1
      | none => st1
    let st3 := if event.turn_complete then finalizeAgentMessage st2 else st2
    let st4 :=
      if event.interrupted then finalizeAgentMessage (postEndOfAudio st3) else st3
    let st5 :=
      match event.input_transcription with
      | some tr =>
        if tr.text ≠ "" then updateTranscription Role.user tr.text tr.finished st4 else st4
      | none => st4
    let st6 :=
      match event.output_transcription with
      | some tr =>
        if tr.text ≠ "" then
          updateAgentMessage tr.text (!tr.finished)
            (updateTranscription Role.agent tr.text tr.finished st5)
        else st5
      | none => st5
    match event.content with
    | some c => c.parts.foldl processInventoryPart st6
    | none => st6

end AppClient

namespace Session

/-- Reconnect delay from `setTimeout(connect, 5000)` in the `ws.onclose`
handler of `connect()` (`app.js` line 477), in milliseconds. -/
def reconnectDelayMs : ℕ := 5000

/-- Session lifecycle state: whether the reconnect-on-close handler is
attached to the socket (`ws.onclose` non-null), whether the connection is
up, and the delays of the reconnect timers scheduled so far. -/
structure SessionState where
  oncloseAttached : Bool
  connected : Bool
  pendingReconnects : List ℕ
  deriving Repr, DecidableEq

/-- Function `connect()` (`app.js` lines 460–488): create the socket and
install the handlers; in particular `ws.onclose` is set to the handler that
schedules a reconnect. -/
def connect (st : SessionState) : SessionState :=
  { st with oncloseAttached := true }

/-- The socket's close event firing: when the `onclose` handler is attached
(unexpected closure) it marks the connection down and schedules exactly one
reconnect timer with the fixed delay; when the handler was nulled out the
closure has no further effect. -/
def fireClose (st : SessionState) : SessionState :=
  if st.oncloseAttached then
    { st with
      connected := false
      pendingReconnects := st.pendingReconnects ++ [reconnectDelayMs] }
  else
    { st with connected := false }

/-- Function `disconnect()` (`app.js` lines 501–522): release devices, set
`ws.onclose = null` (the comment in the source reads "prevent
auto-reconnect"), close the socket, and mark the UI disconnected. -/
def disconnect (st : SessionState) : SessionState :=
  { st with oncloseAttached := false, connected := false }

end Session

namespace AppClient

/-- Initial browser-side state: empty accumulators, no live agent message,
no player node yet, audio filtering off, empty console. -/
def initClientState : ClientState :=
  { currentAgentMessage := none
    currentAgentText := ""
    currentInputTranscription := ""
    currentOutputTranscription := ""
    transcriptEntries := []
    detachedMessages := []
    inventoryCount := none
    hasPlayerNode := false
    player := PCMPlayer.initProcessorState
    filterAudio := false
    consoleEntries := 0 }

/-- A downstream event carrying a single partial text delta. -/
def textDeltaEvent (t : String) : ServerEvent :=
  { content := some { parts := [{ inline_data := none, text := some t, function_response := none }] }
    partialFlag := true }

/-- A downstream event carrying only an unfinished input transcription
delta. -/
def inputTranscriptionEvent (t : String) : ServerEvent :=
  { input_transcription := some { text := t, finished := false } }

/-- A downstream event carrying only the turn-completion flag. -/
def turnCompleteEvent : ServerEvent :=
  { turn_complete := true }

end AppClient

open AudioPlayer AudioRecorder PCMPlayer AppClient Session

/-- Claim C1 — every chunk handed to `playAudioChunk` is scheduled to start
at `max(arrival time, nextStartTime)` and `nextStartTime` then advances by
exactly the chunk's duration: when the previous chunk has not finished by
the next arrival, the next start equals previous start plus previous
duration; when the queue had drained, the next start equals the arrival
time; starts never overlap and leave no gap while chunks are queued.  In the
spec's scenario (chunks of 100 ms, 150 ms, 80 ms arriving at t = 0 ms,
50 ms, 500 ms) the scheduled starts are 0 ms, 100 ms, 500 ms
(0, 1/10, 1/2 in seconds). -/
theorem playAudioChunk_gapless_schedule :
    (∀ (st : PlayerState) (t1 t2 : ℚ) (xs : List ℤ),
      (t2 ≤ chunkStart t1 st + chunkDuration xs →
        chunkStart t2 (playAudioChunk t1 xs st) = chunkStart t1 st + chunkDuration xs) ∧
      (chunkStart t1 st + chunkDuration xs ≤ t2 →
        chunkStart t2 (playAudioChunk t1 xs st) = t2) ∧
      chunkStart t1 st + chunkDuration xs ≤ chunkStart t2 (playAudioChunk t1 xs st) ∧
      (playAudioChunk t1 xs st).nextStartTime = chunkStart t1 st + chunkDuration xs) ∧
    playStarts initPlayerState scenarioChunks = [0, 1/10, 1/2] := by
  constructor
  · intro st t1 t2 xs
    refine ⟨fun h => ?_, fun h => ?_, ?_, rfl⟩
    · exact max_eq_right h
    · exact max_eq_left h
    · exact le_max_right _ _
  · simp only [scenarioChunks, playStarts, playAudioChunk, chunkStart, chunkDuration,
      initPlayerState, List.length_replicate]
    norm_num [max_def]

/-- Witness for C1 at concrete inputs: from the initial state, a 2400-sample
chunk arriving at t = 0 occupies [0, 1/10]; a chunk arriving at t = 2 (after
the queue drained) starts exactly at its arrival time 2. -/
theorem playAudioChunk_gapless_schedule_witness :
    chunkStart 0 initPlayerState + chunkDuration (List.replicate 2400 0) ≤ 2 ∧
    chunkStart 2 (playAudioChunk 0 (List.replicate 2400 0) initPlayerState) = 2 :=
  ⟨by norm_num [chunkStart, chunkDuration, initPlayerState, max_def],
   (playAudioChunk_gapless_schedule.1 initPlayerState 0 2 (List.replicate 2400 0)).2.1
     (by norm_num [chunkStart, chunkDuration, initPlayerState, max_def])⟩

/-- Claim C3 — `stopAudioPlayback` stops and discards every tracked
scheduled source (all sources not yet finished, including the
currently-sounding one), and resets `nextStartTime` to the current time, so
a chunk enqueued afterwards is scheduled to start at or after the flush
time, never earlier. -/
theorem stopAudioPlayback_flushes :
    ∀ (st : PlayerState) (now t : ℚ) (xs : List ℤ),
      (stopAudioPlayback now st).scheduledSources = [] ∧
      (stopAudioPlayback now st).nextStartTime = now ∧
      now ≤ chunkStart t (stopAudioPlayback now st) ∧
      now ≤ (playAudioChunk t xs (stopAudioPlayback now st)).nextStartTime := by
  intro st now t xs
  refine ⟨rfl, rfl, le_max_right _ _, ?_⟩
  have h1 : now ≤ chunkStart t (stopAudioPlayback now st) := le_max_right _ _
  have h2 : (0 : ℚ) ≤ chunkDuration xs := by
    unfold chunkDuration
    positivity
  calc now ≤ chunkStart t (stopAudioPlayback now st) := h1
    _ ≤ chunkStart t (stopAudioPlayback now st) + chunkDuration xs := by linarith
    _ = (playAudioChunk t xs (stopAudioPlayback now st)).nextStartTime := rfl

/-- Claim C5 (corrected) — a malformed inbound text message makes
`JSON.parse` throw; the `catch` branch returns at once, so the handler never
raises (it is a total function), the entire client state — conversation,
playback, console — is unchanged, and any following valid message is
processed exactly as if the malformed one had never arrived.  (The claim's
"and logs it" does not hold: the `catch` is silent, see the
counterexample.) -/
theorem handleServerEvent_malformed_harmless :
    ∀ (st : ClientState) (e : ServerEvent),
      handleServerEvent none st = st ∧
      handleServerEvent (some e) (handleServerEvent none st) = handleServerEvent (some e) st :=
  fun _ _ => ⟨rfl, rfl⟩

/-- Counterexample to claim C5 as stated: a message that fails JSON parsing
is dropped without appending any console log entry — the claim's "logs it"
is false.  (Function `logConsole` appends exactly one console entry per
call, and the count stays at 0.) -/
theorem handleServerEvent_malformed_not_logged :
    (handleServerEvent none initClientState).consoleEntries = 0 ∧
    (handleServerEvent none initClientState).consoleEntries ≠
      initClientState.consoleEntries + 1 := by
  exact ⟨rfl, by decide⟩

/-- Claim C4 — a text delta replaces (never appends to) the displayed agent
text: after any two consecutive deltas the displayed text equals the second
delta's full text, and in the spec's scenario the deltas "Hello" then
"Hello there" leave the displayed text "Hello there", not
"HelloHello there". -/
theorem updateAgentMessage_replaces :
    (∀ (st : ClientState) (t1 t2 : String) (p1 p2 : Bool),
      (updateAgentMessage t2 p2 (updateAgentMessage t1 p1 st)).currentAgentText = t2) ∧
    (handleServerEvent (some (textDeltaEvent "Hello there"))
        (handleServerEvent (some (textDeltaEvent "Hello")) initClientState)).currentAgentText
      = "Hello there" ∧
    "Hello there" ≠ "Hello" ++ "Hello there" := by
  refine ⟨fun st t1 t2 p1 p2 => rfl, rfl, by decide⟩

/-- Counterexample to claim C2 as stated: after an event with an unfinished
input transcription delta "par" followed by an event carrying
`turn_complete`, the input transcription accumulator still holds "par" —
`handleServerEvent` runs only `finalizeAgentMessage` on `turn_complete`,
which never touches `currentInputTranscription` or
`currentOutputTranscription`. -/
theorem turnComplete_leaves_transcription_nonempty :
    (handleServerEvent (some turnCompleteEvent)
        (handleServerEvent (some (inputTranscriptionEvent "par"))
          initClientState)).currentInputTranscription = "par" ∧
    ("par" : String) ≠ "" :=
  ⟨rfl, by decide⟩

/-- The pair of per-role transcription accumulators. -/
def trAccs (st : ClientState) : String × String :=
  (st.currentInputTranscription, st.currentOutputTranscription)

/-- The agent display accumulator: live element text and `currentAgentText`. -/
def display (st : ClientState) : Option String × String :=
  (st.currentAgentMessage, st.currentAgentText)

lemma trAccs_processPart (p : Bool) (st : ClientState) (part : Part) :
    trAccs (processPart p st part) = trAccs st := by
  rcases part with ⟨id, tx, fr⟩
  unfold processPart playAudio updateAgentMessage trAccs
  cases id <;> cases tx <;> dsimp <;> split_ifs <;> rfl

lemma trAccs_foldl_processPart (p : Bool) (l : List Part) (st : ClientState) :
    trAccs (l.foldl (processPart p) st) = trAccs st := by
  induction l generalizing st with
  | nil => rfl
  | cons a l ih =>
    rw [List.foldl_cons, ih (processPart p st a), trAccs_processPart]

lemma trAccs_processInventoryPart (st : ClientState) (part : Part) :
    trAccs (processInventoryPart st part) = trAccs st := by
  rcases part with ⟨id, tx, fr⟩
  cases fr with
  | none => rfl
  | some fr =>
    rcases fr with ⟨ta⟩
    cases ta <;> rfl

lemma trAccs_foldl_processInventoryPart (l : List Part) (st : ClientState) :
    trAccs (l.foldl processInventoryPart st) = trAccs st := by
  induction l generalizing st with
  | nil => rfl
  | cons a l ih =>
    rw [List.foldl_cons, ih (processInventoryPart st a), trAccs_processInventoryPart]

lemma trAccs_finalizeAgentMessage (st : ClientState) :
    trAccs (finalizeAgentMessage st) = trAccs st := rfl

lemma trAccs_postEndOfAudio (st : ClientState) :
    trAccs (postEndOfAudio st) = trAccs st := by
  unfold postEndOfAudio
  split_ifs <;> rfl

lemma display_processInventoryPart (st : ClientState) (part : Part) :
    display (processInventoryPart st part) = display st := by
  rcases part with ⟨id, tx, fr⟩
  cases fr with
  | none => rfl
  | some fr =>
    rcases fr with ⟨ta⟩
    cases ta <;> rfl

lemma display_foldl_processInventoryPart (l : List Part) (st : ClientState) :
    display (l.foldl processInventoryPart st) = display st := by
  induction l generalizing st with
  | nil => rfl
  | cons a l ih =>
    rw [List.foldl_cons, ih (processInventoryPart st a), display_processInventoryPart]

lemma display_finalizeAgentMessage (st : ClientState) :
    display (finalizeAgentMessage st) = (none, "") := rfl

lemma handleServerEvent_no_transcription (st : ClientState) (e : ServerEvent)
    (htc : e.turn_complete = true ∨ e.interrupted = true)
    (hin : e.input_transcription = none) (hout : e.output_transcription = none) :
    display (handleServerEvent (some e) st) = (none, "") ∧
    trAccs (handleServerEvent (some e) st) = trAccs st := by
  rcases e with ⟨c, pf, tc, ir, itr, otr, au⟩
  simp only at htc hin hout
  subst hin
  subst hout
  show display (handleServerEvent (some ⟨c, pf, tc, ir, none, none, au⟩) st) = _ ∧
    trAccs (handleServerEvent (some ⟨c, pf, tc, ir, none, none, au⟩) st) = _
  simp only [handleServerEvent]
  cases tc with
  | false =>
    cases ir with
    | false => simp at htc
    | true =>
      cases c with
      | none =>
        simp only [Bool.false_eq_true, if_false, if_true]
        refine ⟨display_finalizeAgentMessage _, ?_⟩
        rw [trAccs_finalizeAgentMessage, trAccs_postEndOfAudio]
        split_ifs <;> rfl
      | some cc =>
        simp only [Bool.false_eq_true, if_false, if_true]
        refine ⟨?_, ?_⟩
        · rw [display_foldl_processInventoryPart, display_finalizeAgentMessage]
        · rw [trAccs_foldl_processInventoryPart, trAccs_finalizeAgentMessage,
            trAccs_postEndOfAudio, trAccs_foldl_processPart]
          split_ifs <;> rfl
  | true =>
    cases c with
    | none =>
      cases ir with
      | false =>
        simp only [Bool.false_eq_true, if_false, if_true]
        refine ⟨display_finalizeAgentMessage _, ?_⟩
        rw [trAccs_finalizeAgentMessage]
        split_ifs <;> rfl
      | true =>
        simp only [if_true]
        refine ⟨display_finalizeAgentMessage _, ?_⟩
        rw [trAccs_finalizeAgentMessage, trAccs_postEndOfAudio, trAccs_finalizeAgentMessage]
        split_ifs <;> rfl
    | some cc =>
      cases ir with
      | false =>
        simp only [Bool.false_eq_true, if_false, if_true]
        refine ⟨?_, ?_⟩
        · rw [display_foldl_processInventoryPart, display_finalizeAgentMessage]
        · rw [trAccs_foldl_processInventoryPart, trAccs_finalizeAgentMessage,
            trAccs_foldl_processPart]
          split_ifs <;> rfl
      | true =>
        simp only [if_true]
        refine ⟨?_, ?_⟩
        · rw [display_foldl_processInventoryPart, display_finalizeAgentMessage]
        · rw [trAccs_foldl_processInventoryPart, trAccs_finalizeAgentMessage,
            trAccs_postEndOfAudio, trAccs_finalizeAgentMessage, trAccs_foldl_processPart]
          split_ifs <;> rfl

lemma truncTowardZero_intCast (m : ℤ) : truncTowardZero (m : ℚ) = m := by
  unfold truncTowardZero
  split_ifs <;> simp

/-- Counterexample to claim C6 as stated: the playback normalization in
`pcm-player-processor.js` is `n / 0x7fff` (`dequantizeSample`), and
quantizing the normalized float of the already-quantized value `-32767`
yields `-32768`, not `-32767`: `-32767 / 32767 = -1` exactly, and the
negative branch multiplies by `32768`.  (The alternative normalization
`n / 32768` used in `audio-player.js` fails for every positive `n`:
`trunc(n/32768 * 32767) = n - 1`.) -/
theorem convertSample_roundtrip_fails_at_neg32767 :
    convertSample (dequantizeSample (-32767)) = -32768 ∧ (-32768 : ℤ) ≠ -32767 := by
  refine ⟨?_, by decide⟩
  norm_num [convertSample, dequantizeSample, truncTowardZero, max_def, min_def]
  rw [show ((-32768 : ℚ)) = ((-32768 : ℤ) : ℚ) from by norm_num]
  exact Int.ceil_intCast _

/-- Claim C6 (amended) — PCM quantization maps `+1.0` to `32767` and `-1.0`
to `-32768`, and is idempotent on already-quantized values for every 16-bit
integer except `-32767`: for every `n` with `-32768 ≤ n ≤ 32767` and
`n ≠ -32767`, quantizing the normalized float `n / 0x7fff` (the playback
dequantization of `pcm-player-processor.js`) yields `n` again; at
`n = -32767` the round trip yields `-32768` (see the counterexample). -/
theorem convertSample_roundtrip :
    convertSample 1 = 32767 ∧
    convertSample (-1) = -32768 ∧
    ∀ n : ℤ, -32768 ≤ n → n ≤ 32767 → n ≠ -32767 →
      convertSample (dequantizeSample n) = n := by
  refine ⟨?_, ?_, ?_⟩
  · norm_num [convertSample, truncTowardZero, max_def, min_def]
  · norm_num [convertSample, truncTowardZero, max_def, min_def]
    rw [show ((-32768 : ℚ)) = ((-32768 : ℤ) : ℚ) from by norm_num]
    exact Int.ceil_intCast _
  · intro n h1 h2 h3
    by_cases h4 : n = -32768
    · subst h4
      norm_num [convertSample, dequantizeSample, truncTowardZero, max_def, min_def]
      rw [show ((-32768 : ℚ)) = ((-32768 : ℤ) : ℚ) from by norm_num]
      exact Int.ceil_intCast _
    · have h5 : -32766 ≤ n := by omega
      rcases le_or_lt 0 n with hpos | hneg
      · have hn0 : (0 : ℚ) ≤ (n : ℚ) := by exact_mod_cast hpos
        have hq0 : (0 : ℚ) ≤ (n : ℚ) / 32767 := div_nonneg hn0 (by norm_num)
        have hq1 : (n : ℚ) / 32767 ≤ 1 := by
          rw [div_le_one (by norm_num : (0 : ℚ) < 32767)]
          exact_mod_cast h2
        unfold convertSample dequantizeSample
        rw [show ((0x7fff : ℚ) = 32767) from by norm_num]
        rw [min_eq_right hq1, max_eq_right (le_trans (by norm_num) hq0),
          if_neg (not_lt.mpr hq0), show ((0x7fff : ℚ) = 32767) from by norm_num,
          div_mul_cancel₀ (n : ℚ) (by norm_num : (32767 : ℚ) ≠ 0),
          truncTowardZero_intCast]
      · have hn0 : (n : ℚ) < 0 := by exact_mod_cast hneg
        have hq0 : (n : ℚ) / 32767 < 0 := div_neg_of_neg_of_pos hn0 (by norm_num)
        have hq1 : (n : ℚ) / 32767 ≤ 1 := le_of_lt (lt_of_lt_of_le hq0 (by norm_num))
        have hm : (-32767 : ℚ) ≤ (n : ℚ) := by
          exact_mod_cast (by omega : (-32767 : ℤ) ≤ n)
        have hqm1 : (-1 : ℚ) ≤ (n : ℚ) / 32767 := by
          rw [le_div_iff₀ (by norm_num : (0 : ℚ) < 32767)]
          linarith
        unfold convertSample dequantizeSample
        rw [show ((0x7fff : ℚ) = 32767) from by norm_num]
        rw [min_eq_right hq1, max_eq_right hqm1, if_pos hq0]
        unfold truncTowardZero
        have hprod : (n : ℚ) / 32767 * 0x8000 < 0 :=
          mul_neg_of_neg_of_pos hq0 (by norm_num)
        rw [if_pos hprod, Int.ceil_eq_iff]
        have h6 : (-32766 : ℚ) ≤ (n : ℚ) := by exact_mod_cast h5
        constructor
        · rw [show ((0x8000 : ℚ) = 32768) from by norm_num, div_mul_eq_mul_div,
            lt_div_iff₀ (by norm_num : (0 : ℚ) < 32767)]
          linarith
        · rw [show ((0x8000 : ℚ) = 32768) from by norm_num, div_mul_eq_mul_div,
            div_le_iff₀ (by norm_num : (0 : ℚ) < 32767)]
          linarith

/-- Witness for C6 (amended) at `n = 100`: the hypotheses hold and the round
trip through the playback normalization returns 100. -/
theorem convertSample_roundtrip_witness :
    ((-32768 : ℤ) ≤ 100 ∧ (100 : ℤ) ≤ 32767 ∧ (100 : ℤ) ≠ -32767) ∧
    convertSample (dequantizeSample 100) = 100 :=
  ⟨⟨by decide, by decide, by decide⟩,
    convertSample_roundtrip.2.2 100 (by decide) (by decide) (by decide)⟩

/-- Claim C2 (amended) — immediately after processing an event carrying
`turn_complete` or `interrupted`, the agent display accumulator is reset
(`currentAgentMessageEl` nulled, `currentAgentText` empty), but the per-role
transcription accumulators are NOT cleared: when the event carries no
transcription deltas they are exactly unchanged (they are cleared only by a
`TranscriptionDelta` with `finished = true` for that role). -/
theorem turn_boundary_clears_display_not_transcriptions :
    ∀ (st : ClientState) (e : ServerEvent),
      e.turn_complete = true ∨ e.interrupted = true →
      e.input_transcription = none →
      e.output_transcription = none →
      (handleServerEvent (some e) st).currentAgentMessage = none ∧
      (handleServerEvent (some e) st).currentAgentText = "" ∧
      (handleServerEvent (some e) st).currentInputTranscription =
        st.currentInputTranscription ∧
      (handleServerEvent (some e) st).currentOutputTranscription =
        st.currentOutputTranscription := by
  intro st e htc hin hout
  have h := handleServerEvent_no_transcription st e htc hin hout
  refine ⟨?_, ?_, ?_, ?_⟩
  · exact congrArg Prod.fst h.1
  · exact congrArg Prod.snd h.1
  · exact congrArg Prod.fst h.2
  · exact congrArg Prod.snd h.2

/-- Witness for C2 (amended): from a state holding the unfinished input
transcription "par", an event with `turn_complete` leaves "par" in place and
empties the display accumulator. -/
theorem turn_boundary_clears_display_not_transcriptions_witness :
    (turnCompleteEvent.turn_complete = true ∨ turnCompleteEvent.interrupted = true) ∧
    turnCompleteEvent.input_transcription = none ∧
    turnCompleteEvent.output_transcription = none ∧
    ((handleServerEvent (some turnCompleteEvent)
        (handleServerEvent (some (inputTranscriptionEvent "par"))
          initClientState)).currentAgentText = "" ∧
      (handleServerEvent (some turnCompleteEvent)
          (handleServerEvent (some (inputTranscriptionEvent "par"))
            initClientState)).currentInputTranscription =
        (handleServerEvent (some (inputTranscriptionEvent "par"))
            initClientState).currentInputTranscription) :=
  ⟨Or.inl rfl, rfl, rfl,
    ((turn_boundary_clears_display_not_transcriptions
      (handleServerEvent (some (inputTranscriptionEvent "par")) initClientState)
      turnCompleteEvent (Or.inl rfl) rfl rfl).2.1),
    ((turn_boundary_clears_display_not_transcriptions
      (handleServerEvent (some (inputTranscriptionEvent "par")) initClientState)
      turnCompleteEvent (Or.inl rfl) rfl rfl).2.2.1)⟩


/-- Claim C9 — an unexpected WebSocket closure (the `onclose` handler still
attached) schedules exactly one reconnect attempt with the fixed 5000 ms
delay; a user-initiated `disconnect` nulls the `onclose` handler before
closing, so the subsequent close event schedules no reconnect, and no
reconnect is ever scheduled afterwards while the handler stays detached. -/
theorem reconnect_policy :
    (∀ st : SessionState, st.oncloseAttached = true →
      (fireClose st).pendingReconnects = st.pendingReconnects ++ [reconnectDelayMs]) ∧
    reconnectDelayMs = 5000 ∧
    (∀ st : SessionState,
      (disconnect st).oncloseAttached = false ∧
      (disconnect st).pendingReconnects = st.pendingReconnects ∧
      (fireClose (disconnect st)).pendingReconnects = st.pendingReconnects) ∧
    (∀ st : SessionState, (connect st).oncloseAttached = true) := by
  refine ⟨fun st h => ?_, rfl, fun st => ⟨rfl, rfl, ?_⟩, fun st => rfl⟩
  · simp [fireClose, h]
  · simp [fireClose, disconnect]

/-- Witness for C9 at a concrete connected session with the handler
attached: the close event appends exactly one 5000 ms reconnect timer. -/
theorem reconnect_policy_witness :
    (SessionState.mk true true []).oncloseAttached = true ∧
    (fireClose (SessionState.mk true true [])).pendingReconnects =
      ([] : List ℕ) ++ [reconnectDelayMs] :=
  ⟨rfl, reconnect_policy.1 (SessionState.mk true true []) rfl⟩

lemma bufferSize_pos : 0 < bufferSize := by norm_num [bufferSize]

lemma unread_eq_zero_iff (st : ProcessorState) (h : indexInv st) :
    unread st = 0 ↔ st.readIndex = st.writeIndex := by
  obtain ⟨h1, h2⟩ := h
  unfold unread
  have hb : bufferSize = 4320000 := rfl
  rw [hb] at h1 h2 ⊢
  omega

lemma enqueueSample_indexInv (x : ℤ) (st : ProcessorState) (h : indexInv st) :
    indexInv (enqueueSample x st) := by
  simp only [enqueueSample]
  split_ifs
  · exact ⟨Nat.mod_lt _ bufferSize_pos, Nat.mod_lt _ bufferSize_pos⟩
  · exact ⟨Nat.mod_lt _ bufferSize_pos, h.2⟩

lemma enqueue_indexInv (xs : List ℤ) (st : ProcessorState) (h : indexInv st) :
    indexInv (enqueue xs st) := by
  induction xs generalizing st with
  | nil => exact h
  | cons a l ih => exact ih (enqueueSample a st) (enqueueSample_indexInv a st h)

lemma processStep_indexInv (st : ProcessorState) (h : indexInv st) :
    indexInv (processStep st).2 := by
  simp only [processStep]
  split_ifs
  · exact ⟨h.1, Nat.mod_lt _ bufferSize_pos⟩
  · exact h

lemma process_indexInv (n : ℕ) (st : ProcessorState) (h : indexInv st) :
    indexInv (process n st).2 := by
  induction n generalizing st with
  | zero => exact h
  | succ n ih => exact ih (processStep st).2 (processStep_indexInv st h)

lemma readList_succ (st : ProcessorState) (h : st.readIndex < bufferSize) (m : ℕ) :
    readList st (m + 1) =
      st.buffer st.readIndex ::
        readList { st with readIndex := (st.readIndex + 1) % bufferSize } m := by
  unfold readList
  rw [List.range_succ_eq_map]
  simp only [List.map_cons, List.map_map]
  have hfun : ((fun i => st.buffer ((st.readIndex + i) % bufferSize)) ∘ Nat.succ) =
      fun i => st.buffer (((st.readIndex + 1) % bufferSize + i) % bufferSize) := by
    funext i
    have : ((st.readIndex + 1) % bufferSize + i) % bufferSize =
        (st.readIndex + Nat.succ i) % bufferSize := by
      rw [Nat.mod_add_mod]
      congr 1
      omega
    simp [Function.comp, this]
  rw [hfun, Nat.add_zero, Nat.mod_eq_of_lt h]

lemma unread_advance (st : ProcessorState) (h : indexInv st)
    (hrw : st.readIndex ≠ st.writeIndex) :
    unread { st with readIndex := (st.readIndex + 1) % bufferSize } = unread st - 1 := by
  obtain ⟨h1, h2⟩ := h
  show (bufferSize + st.writeIndex - (st.readIndex + 1) % bufferSize) % bufferSize =
    (bufferSize + st.writeIndex - st.readIndex) % bufferSize - 1
  have hb : bufferSize = 4320000 := rfl
  rw [hb] at h1 h2 ⊢
  omega

/-- Claim C10 — in every `process` call, each output sample is either the
oldest not-yet-consumed enqueued sample (so non-dropped samples play in
exact FIFO order) or 0 when the buffer is empty: the emitted quantum is the
first `min n unread` unread samples in FIFO order followed by silence,
`readIndex` advances by exactly the number of samples consumed (never past
`writeIndex`, since at most `unread` are consumed; never backwards, so
nothing is replayed), `writeIndex` and the buffer contents are untouched,
and the function is total (an underrun produces zeros, never an error). -/
theorem process_fifo_characterization :
    ∀ (n : ℕ) (st : ProcessorState), indexInv st →
      (process n st).1 =
        readList st (min n (unread st)) ++
          List.replicate (n - min n (unread st)) 0 ∧
      (process n st).2.readIndex =
        (st.readIndex + min n (unread st)) % bufferSize ∧
      (process n st).2.writeIndex = st.writeIndex ∧
      (process n st).2.buffer = st.buffer ∧
      min n (unread st) ≤ unread st := by
  intro n
  induction n with
  | zero =>
    intro st h
    refine ⟨?_, ?_, rfl, rfl, Nat.min_le_right _ _⟩
    · rw [Nat.zero_min]
      rfl
    · show st.readIndex = (st.readIndex + min 0 (unread st)) % bufferSize
      rw [Nat.zero_min, Nat.add_zero, Nat.mod_eq_of_lt h.2]
  | succ n ih =>
    intro st h
    by_cases hrw : st.readIndex = st.writeIndex
    · have hu : unread st = 0 := (unread_eq_zero_iff st h).mpr hrw
      have hstep : processStep st = (0, st) := by simp [processStep, hrw]
      obtain ⟨ih1, ih2, ih3, ih4, ih5⟩ := ih st h
      simp only [process, hstep]
      rw [hu] at ih1 ih2 ⊢
      refine ⟨?_, ?_, ih3, ih4, Nat.min_le_right _ _⟩
      · rw [ih1]
        simp [readList, Nat.min_zero, List.replicate_succ]
      · rw [ih2]
        simp [Nat.min_zero]
    · have hstep : processStep st =
          (st.buffer st.readIndex,
            { st with readIndex := (st.readIndex + 1) % bufferSize }) := by
        simp [processStep, hrw]
      have hinv : indexInv { st with readIndex := (st.readIndex + 1) % bufferSize } :=
        ⟨h.1, Nat.mod_lt _ bufferSize_pos⟩
      obtain ⟨ih1, ih2, ih3, ih4, ih5⟩ :=
        ih { st with readIndex := (st.readIndex + 1) % bufferSize } hinv
      have hu' := unread_advance st h hrw
      have hu1 : 1 ≤ unread st := by
        rcases Nat.eq_zero_or_pos (unread st) with h0 | h0
        · exact absurd ((unread_eq_zero_iff st h).mp h0) hrw
        · exact h0
      have hmin : min (n + 1) (unread st) = min n (unread st - 1) + 1 := by omega
      have hrep : (n + 1) - min (n + 1) (unread st) = n - min n (unread st - 1) := by
        omega
      simp only [process, hstep]
      rw [hu'] at ih1 ih2 ih5
      refine ⟨?_, ?_, ih3, ih4, ?_⟩
      · rw [ih1, hmin, readList_succ st h.2]
        simp [List.cons_append, Nat.succ_sub_succ]
      · rw [ih2, hmin]
        show ((st.readIndex + 1) % bufferSize + min n (unread st - 1)) % bufferSize =
          (st.readIndex + (min n (unread st - 1) + 1)) % bufferSize
        rw [Nat.mod_add_mod]
        congr 1
        omega
      · omega

/-- Witness for C10 from the empty initial state with a 2-frame quantum:
the invariant holds and the output is all silence. -/
theorem process_fifo_characterization_witness :
    indexInv initProcessorState ∧
    (process 2 initProcessorState).1 =
      readList initProcessorState (min 2 (unread initProcessorState)) ++
        List.replicate (2 - min 2 (unread initProcessorState)) 0 :=
  ⟨by decide, (process_fifo_characterization 2 initProcessorState (by decide)).1⟩

/-- Claim C7 — the playback ring buffer has fixed capacity
`24000 * 180` samples; `_enqueue` and `process` preserve the index
invariant, and the number of unread samples never exceeds the capacity; on a
write overrun (the advanced `writeIndex` collides with `readIndex`) the
oldest unread sample is evicted by advancing `readIndex` past it while the
new sample is stored and `writeIndex` still advances — the write continues
instead of blocking or rejecting the sample. -/
theorem ringBuffer_capacity_invariant :
    bufferSize = 24000 * 180 ∧
    (∀ st : ProcessorState, unread st ≤ bufferSize) ∧
    (∀ (st : ProcessorState) (xs : List ℤ), indexInv st → indexInv (enqueue xs st)) ∧
    (∀ (st : ProcessorState) (n : ℕ), indexInv st → indexInv (process n st).2) ∧
    (∀ (st : ProcessorState) (x : ℤ),
      (st.writeIndex + 1) % bufferSize = st.readIndex →
      (enqueueSample x st).readIndex = (st.readIndex + 1) % bufferSize ∧
      (enqueueSample x st).writeIndex = (st.writeIndex + 1) % bufferSize ∧
      (enqueueSample x st).buffer st.writeIndex = dequantizeSample x) := by
  refine ⟨rfl, fun st => le_of_lt (Nat.mod_lt _ bufferSize_pos),
    fun st xs h => enqueue_indexInv xs st h,
    fun st n h => process_indexInv n st h,
    fun st x hcol => ?_⟩
  simp only [enqueueSample]
  rw [if_pos hcol]
  exact ⟨rfl, rfl, Function.update_same _ _ _⟩

/-- Witness for C7 at concrete states: the empty initial state satisfies the
invariant and keeps it after enqueuing one sample, and a full buffer
(`writeIndex = 0`, `readIndex = 1`) collides on the next write, which evicts
the oldest sample by advancing `readIndex` to `2 % bufferSize`. -/
theorem ringBuffer_capacity_invariant_witness :
    indexInv initProcessorState ∧
    indexInv (enqueue [5] initProcessorState) ∧
    ((ProcessorState.mk (fun _ => 0) 0 1).writeIndex + 1) % bufferSize =
      (ProcessorState.mk (fun _ => 0) 0 1).readIndex ∧
    (enqueueSample 7 (ProcessorState.mk (fun _ => 0) 0 1)).readIndex =
      (1 + 1) % bufferSize :=
  ⟨by decide,
   ringBuffer_capacity_invariant.2.2.1 initProcessorState [5] (by decide),
   by decide,
   (ringBuffer_capacity_invariant.2.2.2.2 (ProcessorState.mk (fun _ => 0) 0 1) 7
     (by decide)).1⟩

/-- Claim C8 — capture-side downsampling by an integer ratio `k` (native
rate `k ·` target rate) produces `⌊len / k⌋` output samples, within one
sample of the exact ratio (`k · out ≤ len < k · (out + 1)`); at identity
rate the frame passes through unchanged, and the Int16 frame handed to the
transmit callback by the recorder's message handler always has exactly the
length of the captured Float32 frame. -/
theorem downsample_length_ratio :
    (∀ (k targetRate : ℕ) (xs : List ℚ), 0 < k → 0 < targetRate →
      (downsample (k * targetRate) targetRate xs).length = xs.length / k ∧
      k * (downsample (k * targetRate) targetRate xs).length ≤ xs.length ∧
      xs.length < k * ((downsample (k * targetRate) targetRate xs).length + 1)) ∧
    (∀ (r : ℕ) (xs : List ℚ), downsample r r xs = xs) ∧
    (∀ xs : List ℚ, (recorderHandlerInput (recorderProcess xs)).length = xs.length) := by
  refine ⟨fun k targetRate xs hk ht => ?_, fun r xs => ?_, fun xs => ?_⟩
  · have hlen : (downsample (k * targetRate) targetRate xs).length = xs.length / k := by
      unfold downsample
      split_ifs with he
      · have hk1 : k = 1 := by
          rcases Nat.eq_or_lt_of_le hk with h1 | h1
          · omega
          · nlinarith [he]
        rw [hk1, Nat.div_one]
      · rw [List.length_map, List.length_range,
          Nat.mul_div_mul_right _ _ ht]
    refine ⟨hlen, ?_, ?_⟩
    · rw [hlen]
      exact Nat.mul_div_le xs.length k
    · rw [hlen]
      exact Nat.lt_mul_div_succ xs.length hk
  · unfold downsample
    rw [if_pos rfl]
  · exact List.length_map _ _

/-- Witness for C8 at `k = 3`, target rate 2, a 7-sample frame: the
downsampled frame has `⌊7 / 3⌋ = 2` samples. -/
theorem downsample_length_ratio_witness :
    0 < 3 ∧ 0 < 2 ∧
    (downsample (3 * 2) 2 [1, 2, 3, 4, 5, 6, 7]).length = 7 / 3 :=
  ⟨by decide, by decide,
   (downsample_length_ratio.1 3 2 [1, 2, 3, 4, 5, 6, 7] (by decide) (by decide)).1⟩
